import Mathlib

/-!
Verification of the markdown parser and timeline layout engine of
`server/scripts/generate_status_report_pptx.py`.

Python strings are modelled as `List Char`; Python `dict`s that are only
written with `d[k] = v` and read by key are modelled as association lists
with replace-in-place insertion.  Machine arithmetic in the script is
plain Python `int` (arbitrary precision), modelled as `Nat`/`Int`;
`int(x)` applied to a nonnegative float quotient is modelled by exact
truncating division.
-/

/-- Whitespace as recognised by Python's `str.strip()` (ASCII part;
the inputs at issue contain no exotic unicode whitespace). -/
def pyIsSpace (c : Char) : Bool :=
  c = ' ' || c = '\t' || c = '\n' || c = '\r' || c = '\x0b' || c = '\x0c'

/-- Remove trailing characters satisfying `pyIsSpace` (right half of `str.strip()`). -/
def stripEnd : List Char → List Char
  | [] => []
  | c :: t =>
    match stripEnd t with
    | [] => if pyIsSpace c then [] else [c]
    | r => c :: r

/-- Python `str.strip()`: drop leading and trailing whitespace. -/
def pyStrip (s : List Char) : List Char :=
  stripEnd (s.dropWhile pyIsSpace)

/-- Python `str.startswith(p)` for `s.startswith(p)` with `p` the first argument. -/
def startsWithL : List Char → List Char → Bool
  | [], _ => true
  | _ :: _, [] => false
  | p :: ps, c :: cs => p = c && startsWithL ps cs

/-- Python `str.split('\n')`. -/
def splitNl : List Char → List (List Char)
  | [] => [[]]
  | c :: t =>
    if c = '\n' then [] :: splitNl t
    else
      match splitNl t with
      | l :: ls => (c :: l) :: ls
      | [] => [[c]]

/-- Python `'\n'.join(lines)`. -/
def joinNl : List (List Char) → List Char
  | [] => []
  | l :: ls =>
    match ls with
    | [] => l
    | _ :: _ => l ++ '\n' :: joinNl ls

/-- Association-list update with Python `dict` assignment semantics:
replace the value in place if the key is present, else append. -/
def insertReplace : List (List Char × List Char) → List Char → List Char →
    List (List Char × List Char)
  | [], k, v => [(k, v)]
  | (k', v') :: t, k, v =>
    if k' = k then (k', v) :: t else (k', v') :: insertReplace t k v

/-- Key lookup in the association-list model of a Python `dict`. -/
def alookup : List (List Char × List Char) → List Char → Option (List Char)
  | [], _ => none
  | (k', v') :: t, k => if k' = k then some v' else alookup t k

/-- The heading marker `'## '`. -/
def hdgSp : List Char := ['#', '#', ' ']

/-- Close the current section (`if current_section: sections[current_section] = ...`);
an empty heading string is falsy in Python, so it is not recorded. -/
def closeSec (secs : List (List Char × List Char)) (cur : Option (List Char))
    (content : List (List Char)) : List (List Char × List Char) :=
  match cur with
  | none => secs
  | some k => if k = [] then secs else insertReplace secs k (pyStrip (joinNl content))

/-- The line loop of `parse_markdown_sections`. -/
def sectionsGo : List (List Char) → Option (List Char) → List (List Char) →
    List (List Char × List Char) → List (List Char × List Char)
  | [], cur, content, secs => closeSec secs cur content
  | l :: ls, cur, content, secs =>
    if startsWithL hdgSp l then
      sectionsGo ls (some (pyStrip (l.drop 3))) [] (closeSec secs cur content)
    else
      sectionsGo ls cur (content ++ [l]) secs

/-- `parse_markdown_sections` from the source: split on newlines, scan for
`'## '` headings, accumulate bodies, close sections on each new heading and
at end of input. -/
def parse_markdown_sections (text : List Char) : List (List Char × List Char) :=
  sectionsGo (splitNl text) none [] []

/-- A parsed bullet item (`{'title': ..., 'description': ..., 'sub_items': [...]}`). -/
structure BulletItem where
  title : List Char
  description : List Char
  sub_items : List (List Char)
deriving DecidableEq

/-- Find the first occurrence of `'**'`, returning the text before it and after it
(model of the lazy step of the regex `\*\*(.+?)\*\*`). -/
def findDoubleStar : List Char → Option (List Char × List Char)
  | '*' :: '*' :: t => some ([], t)
  | c :: t => (findDoubleStar t).map (fun p => (c :: p.1, p.2))
  | [] => none

/-- The separator class `[-–—:]` of the bold-title regex. -/
def sepChars : List Char := ['-', '–', '—', ':']

/-- After the closing `'**'`: `\s*[-–—:]?\s*(.*)` — skip whitespace, at most one
separator character, more whitespace; the rest is group 2. -/
def sepSkip (post : List Char) : List Char :=
  let p1 := post.dropWhile pyIsSpace
  let p2 := match p1 with
    | c :: t => if c ∈ sepChars then t else p1
    | [] => p1
  p2.dropWhile pyIsSpace

/-- `re.match(r'\*\*(.+?)\*\*\s*[-–—:]?\s*(.*)', content)`: anchored at the start,
the lazy group 1 is the shortest nonempty text before the next `'**'`. -/
def boldMatch : List Char → Option (List Char × List Char)
  | '*' :: '*' :: c :: t =>
    (findDoubleStar (c :: t)).bind fun p =>
      match p.1 with
      | [] => none
      | a :: as => some (a :: as, sepSkip p.2)
  | _ => none

/-- Top-level bullet markers `'- '`, `'* '`, `'• '`. -/
def isTopBullet (s : List Char) : Bool :=
  startsWithL ['-', ' '] s || startsWithL ['*', ' '] s || startsWithL ['•', ' '] s

/-- Indented bullet markers `'  - '`, `'  * '`, `'  • '`. -/
def isSubBullet (s : List Char) : Bool :=
  startsWithL [' ', ' ', '-', ' '] s || startsWithL [' ', ' ', '*', ' '] s ||
    startsWithL [' ', ' ', '•', ' '] s

/-- The characters stripped by `stripped.lstrip(' -•*')`. -/
def lstripSet : List Char := [' ', '-', '•', '*']

/-- Build a new bullet item from the content after the marker. -/
def mkBulletItem (content : List Char) : BulletItem :=
  match boldMatch content with
  | some p => { title := pyStrip p.1, description := pyStrip p.2, sub_items := [] }
  | none => { title := content, description := [], sub_items := [] }

/-- Append a continuation line to the current item's description
(space-joined, or set if empty). -/
def addDesc (it : BulletItem) (s : List Char) : BulletItem :=
  if it.description = [] then { it with description := s }
  else { it with description := it.description ++ ' ' :: s }

/-- The line loop of `parse_bullet_items`, with the accumulated items and the
in-progress item as explicit state. -/
def bulletsGo : List (List Char) → Option BulletItem → List BulletItem → List BulletItem
  | [], cur, acc =>
    (match cur with
     | some it => acc ++ [it]
     | none => acc)
  | l :: ls, cur, acc =>
    let s := pyStrip l
    if s = [] then bulletsGo ls cur acc
    else if isTopBullet s then
      let acc' := match cur with
        | some it => acc ++ [it]
        | none => acc
      bulletsGo ls (some (mkBulletItem (pyStrip (s.drop 2)))) acc'
    else if isSubBullet s then
      match cur with
      | some it =>
        bulletsGo ls
          (some { it with sub_items := it.sub_items ++ [pyStrip (s.dropWhile (· ∈ lstripSet))] })
          acc
      | none => bulletsGo ls cur acc
    else
      match cur with
      | some it => bulletsGo ls (some (addDesc it s)) acc
      | none => bulletsGo ls cur acc

/-- `parse_bullet_items` from the source. -/
def parse_bullet_items (text : List Char) : List BulletItem :=
  bulletsGo (splitNl text) none []

/-- The example input of claim C1. -/
def c1Input : List Char := ("- **Launch** – shipped v1\n  - sub detail").data

/-- The item list the claim expects `parse_bullet_items` to produce on `c1Input`. -/
def c1Claimed : List BulletItem :=
  [{ title := ("Launch").data, description := ("shipped v1").data,
     sub_items := [("sub detail").data] }]

/-- What the code actually produces on `c1Input`. -/
def c1Actual : List BulletItem :=
  [{ title := ("Launch").data, description := ("shipped v1").data, sub_items := [] },
   { title := ("sub detail").data, description := [], sub_items := [] }]

/-- Claim C1 concerns the indented sub-bullet branch of `parse_bullet_items`.
Because every line is whitespace-stripped before classification, the branch
testing `stripped.startswith('  - ')` can never fire; the code produces two
separate top-level items on the claim's own example instead of one item with
a sub-item. -/
theorem c1_sub_items_dropped :
    parse_bullet_items c1Input = c1Actual ∧ c1Actual ≠ c1Claimed := by
  constructor
  · decide
  · decide

/-- The head of `List.dropWhile p` does not satisfy `p`. -/
theorem dropWhile_head_false (p : Char → Bool) :
    ∀ (l : List Char) (c : Char) (t : List Char), l.dropWhile p = c :: t → p c = false := by
  intro l
  induction l with
  | nil => intro c t h; simp [List.dropWhile] at h
  | cons x xs ih =>
    intro c t h
    by_cases hx : p x
    · rw [List.dropWhile_cons_of_pos hx] at h
      exact ih c t h
    · rw [List.dropWhile_cons_of_neg hx] at h
      cases h
      simp only [Bool.not_eq_true] at hx
      exact hx

/-- `stripEnd` preserves the head of its argument when the result is nonempty. -/
theorem stripEnd_head :
    ∀ (l : List Char) (c : Char) (t : List Char), stripEnd l = c :: t → ∃ u, l = c :: u := by
  intro l
  cases l with
  | nil => intro c t h; simp [stripEnd] at h
  | cons x xs =>
    intro c t h
    unfold stripEnd at h
    cases hr : stripEnd xs with
    | nil =>
      rw [hr] at h
      by_cases hx : pyIsSpace x
      · simp [hx] at h
      · simp [hx] at h
        exact ⟨xs, by rw [h.1]⟩
    | cons r rs =>
      rw [hr] at h
      cases h
      exact ⟨xs, rfl⟩

/-- A stripped line never begins with whitespace. -/
theorem pyStrip_head_not_space (l : List Char) (c : Char) (t : List Char)
    (h : pyStrip l = c :: t) : pyIsSpace c = false := by
  unfold pyStrip at h
  obtain ⟨u, hu⟩ := stripEnd_head _ c t h
  exact dropWhile_head_false pyIsSpace l c u hu

/-- If a Boolean prefix test with a nonempty pattern succeeds, the string starts
with the pattern's first character. -/
theorem startsWithL_head (p : Char) (ps s : List Char)
    (h : startsWithL (p :: ps) s = true) : ∃ t, s = p :: t := by
  cases s with
  | nil => simp [startsWithL] at h
  | cons c cs =>
    simp only [startsWithL, Bool.and_eq_true, decide_eq_true_eq] at h
    exact ⟨cs, by rw [h.1]⟩

/-- A nonempty stripped line never matches the indented-bullet test: the test
requires a leading space, which `pyStrip` has removed. -/
theorem isSubBullet_pyStrip (l : List Char) (h : pyStrip l ≠ []) :
    isSubBullet (pyStrip l) = false := by
  cases hs : pyStrip l with
  | nil => exact absurd hs h
  | cons c t =>
    have hc : pyIsSpace c = false := pyStrip_head_not_space l c t hs
    by_contra hb
    have hb' : isSubBullet (c :: t) = true := by
      cases hx : isSubBullet (c :: t)
      · exact absurd (hs ▸ hx) hb
      · rfl
    rcases Bool.or_eq_true _ _ |>.mp hb' with h1 | h2
    · rcases Bool.or_eq_true _ _ |>.mp h1 with h3 | h4
      · obtain ⟨u, hu⟩ := startsWithL_head _ _ _ h3
        cases hu; simp [pyIsSpace] at hc
      · obtain ⟨u, hu⟩ := startsWithL_head _ _ _ h4
        cases hu; simp [pyIsSpace] at hc
    · obtain ⟨u, hu⟩ := startsWithL_head _ _ _ h2
      cases hu; simp [pyIsSpace] at hc

/-- A freshly created bullet item has no sub-items. -/
theorem mkBulletItem_subItems (content : List Char) :
    (mkBulletItem content).sub_items = [] := by
  unfold mkBulletItem
  cases boldMatch content <;> rfl

/-- Appending description text does not touch `sub_items`. -/
theorem addDesc_subItems (it : BulletItem) (s : List Char) :
    (addDesc it s).sub_items = it.sub_items := by
  unfold addDesc
  split <;> rfl

/-- Invariant of the `parse_bullet_items` loop: if neither the accumulator nor
the in-progress item carries sub-items, neither does any result item. -/
theorem bulletsGo_subItems (lines : List (List Char)) :
    ∀ (cur : Option BulletItem) (acc : List BulletItem),
      (∀ it ∈ acc, it.sub_items = []) →
      (∀ it, cur = some it → it.sub_items = []) →
      ∀ it ∈ bulletsGo lines cur acc, it.sub_items = [] := by
  induction lines with
  | nil =>
    intro cur acc hacc hcur it hit
    cases cur with
    | none => exact hacc it (by simpa [bulletsGo] using hit)
    | some c =>
      simp only [bulletsGo, List.mem_append, List.mem_singleton] at hit
      rcases hit with h | h
      · exact hacc it h
      · exact h ▸ hcur c rfl
  | cons l ls ih =>
    intro cur acc hacc hcur it hit
    simp only [bulletsGo] at hit
    by_cases hs : pyStrip l = []
    · rw [if_pos hs] at hit
      exact ih cur acc hacc hcur it hit
    · rw [if_neg hs] at hit
      by_cases htop : isTopBullet (pyStrip l) = true
      · rw [if_pos htop] at hit
        refine ih _ _ ?_ ?_ it hit
        · intro x hx
          cases cur with
          | none => exact hacc x hx
          | some c =>
            simp only [List.mem_append, List.mem_singleton] at hx
            rcases hx with h | h
            · exact hacc x h
            · exact h ▸ hcur c rfl
        · intro x hx
          cases hx
          exact mkBulletItem_subItems _
      · rw [if_neg htop] at hit
        have hsub : isSubBullet (pyStrip l) = false := isSubBullet_pyStrip l hs
        rw [if_neg (by simp [hsub])] at hit
        cases cur with
        | none => exact ih none acc hacc (by intro x hx; cases hx) it hit
        | some c =>
          refine ih _ _ hacc ?_ it hit
          intro x hx
          cases hx
          rw [addDesc_subItems]
          exact hcur c rfl

/-- Claim C9: every item returned by `parse_bullet_items` has an empty
`sub_items` sequence, because lines are stripped before classification and the
indented-bullet branch can never match. -/
theorem c9_sub_items_empty (text : List Char) (it : BulletItem)
    (h : it ∈ parse_bullet_items text) : it.sub_items = [] :=
  bulletsGo_subItems (splitNl text) none [] (by intro x hx; cases hx)
    (by intro x hx; cases hx) it h

/-- Witness for C9 at the concrete input `"- a"`. -/
theorem c9_witness :
    ({ title := ['a'], description := [], sub_items := [] } : BulletItem).sub_items = [] :=
  c9_sub_items_empty (['-', ' ', 'a']) _ (by decide)

/-- `splitNl` never returns an empty list of lines. -/
theorem splitNl_ne_nil : ∀ s : List Char, splitNl s ≠ [] := by
  intro s
  cases s with
  | nil => simp [splitNl]
  | cons c t =>
    unfold splitNl
    by_cases hc : c = '\n'
    · simp [hc]
    · rw [if_neg hc]
      cases h : splitNl t <;> simp

/-- Unfolding equation for `splitNl` on a cons cell. -/
theorem splitNl_cons (c : Char) (t : List Char) :
    splitNl (c :: t) =
      if c = '\n' then [] :: splitNl t
      else
        match splitNl t with
        | l :: ls => (c :: l) :: ls
        | [] => [[c]] := by
  rw [splitNl]

/-- Splitting distributes over a newline separator. -/
theorem splitNl_append (a b : List Char) :
    splitNl (a ++ '\n' :: b) = splitNl a ++ splitNl b := by
  induction a with
  | nil =>
    rw [List.nil_append, splitNl_cons, if_pos rfl]
    rfl
  | cons c t ih =>
    by_cases hc : c = '\n'
    · subst hc
      rw [List.cons_append, splitNl_cons, if_pos rfl, splitNl_cons, if_pos rfl, ih]
      rfl
    · rw [List.cons_append, splitNl_cons, if_neg hc, splitNl_cons, if_neg hc, ih]
      cases h : splitNl t with
      | nil => exact absurd h (splitNl_ne_nil t)
      | cons l ls => rfl

/-- A newline-free string is a single line. -/
theorem splitNl_no_nl (l : List Char) (h : '\n' ∉ l) : splitNl l = [l] := by
  induction l with
  | nil => rfl
  | cons c t ih =>
    have hc : c ≠ '\n' := fun he => h (he ▸ List.mem_cons_self c t)
    rw [splitNl_cons, if_neg hc, ih (fun hm => h (List.mem_cons_of_mem c hm))]

/-- Prepending a character to the first line commutes with joining. -/
theorem joinNl_cons_cons (c : Char) (l : List Char) (ls : List (List Char)) :
    joinNl ((c :: l) :: ls) = c :: joinNl (l :: ls) := by
  cases ls <;> rfl

/-- Joining the split lines reproduces the original text. -/
theorem joinNl_splitNl (s : List Char) : joinNl (splitNl s) = s := by
  induction s with
  | nil => rfl
  | cons c t ih =>
    by_cases hc : c = '\n'
    · subst hc
      rw [splitNl_cons, if_pos rfl]
      cases h : splitNl t with
      | nil => exact absurd h (splitNl_ne_nil t)
      | cons l ls =>
        have hih := ih
        rw [h] at hih
        calc joinNl ([] :: l :: ls) = '\n' :: joinNl (l :: ls) := rfl
        _ = '\n' :: t := by rw [hih]
    · rw [splitNl_cons, if_neg hc]
      cases h : splitNl t with
      | nil => exact absurd h (splitNl_ne_nil t)
      | cons l ls =>
        have hih := ih
        rw [h] at hih
        rw [← hih]
        exact joinNl_cons_cons c l ls

/-- Looking up a key just written finds the written value. -/
theorem alookup_insertReplace (l : List (List Char × List Char)) (k v : List Char) :
    alookup (insertReplace l k v) k = some v := by
  induction l with
  | nil => simp [insertReplace, alookup]
  | cons p t ih =>
    obtain ⟨k', v'⟩ := p
    by_cases hk : k' = k
    · subst hk
      simp [insertReplace, alookup]
    · have h1 : insertReplace ((k', v') :: t) k v = (k', v') :: insertReplace t k v := by
        simp [insertReplace, hk]
      have h2 : alookup ((k', v') :: insertReplace t k v) k =
          alookup (insertReplace t k v) k := by
        simp [alookup, hk]
      rw [h1, h2]
      exact ih

/-- A Boolean prefix test succeeds on the pattern followed by anything. -/
theorem startsWithL_append_self : ∀ p r : List Char, startsWithL p (p ++ r) = true := by
  intro p
  induction p with
  | nil => intro r; rfl
  | cons c cs ih => intro r; simp [startsWithL, ih]

/-- Running the section scanner over heading-free lines with an open nonempty
section key records exactly the accumulated body under that key. -/
theorem sectionsGo_body (bls : List (List Char)) :
    ∀ (content : List (List Char)) (secs : List (List Char × List Char)) (k : List Char),
      k ≠ [] → (∀ l ∈ bls, startsWithL hdgSp l = false) →
      sectionsGo bls (some k) content secs =
        insertReplace secs k (pyStrip (joinNl (content ++ bls))) := by
  induction bls with
  | nil =>
    intro content secs k hk _
    simp [sectionsGo, closeSec, hk]
  | cons l ls ih =>
    intro content secs k hk hb
    have hl : startsWithL hdgSp l = false := hb l (List.mem_cons_self l ls)
    simp only [sectionsGo, hl, Bool.false_eq_true, if_false]
    rw [ih (content ++ [l]) secs k hk (fun x hx => hb x (List.mem_cons_of_mem l hx))]
    rw [List.append_assoc, List.singleton_append]

/-- After the last occurrence of a heading, the stored body is the text up to
the end of input, whatever state the scanner reached before the heading. -/
theorem sectionsGo_last_heading (pre : List (List Char)) :
    ∀ (bls : List (List Char)) (h : List Char) (cur : Option (List Char))
      (content : List (List Char)) (secs : List (List Char × List Char)),
      pyStrip h ≠ [] → (∀ l ∈ bls, startsWithL hdgSp l = false) →
      alookup (sectionsGo (pre ++ (hdgSp ++ h) :: bls) cur content secs) (pyStrip h) =
        some (pyStrip (joinNl bls)) := by
  induction pre with
  | nil =>
    intro bls h cur content secs hk hb
    simp only [List.nil_append, sectionsGo, startsWithL_append_self hdgSp h, if_true]
    have hdrop : (hdgSp ++ h).drop 3 = h := List.drop_left hdgSp h
    rw [hdrop, sectionsGo_body bls [] _ (pyStrip h) hk hb, List.nil_append]
    exact alookup_insertReplace _ _ _
  | cons p ps ih =>
    intro bls h cur content secs hk hb
    simp only [List.cons_append, sectionsGo]
    by_cases hp : startsWithL hdgSp p = true
    · rw [if_pos hp]
      exact ih bls h _ _ _ hk hb
    · rw [if_neg hp]
      exact ih bls h _ _ _ hk hb

/-- Claim C10: when the input repeats a `'## '` heading, the returned mapping
binds the (trimmed) heading to the body of the last occurrence only; whatever
precedes the last occurrence — including earlier occurrences of the same
heading and their bodies — is overwritten. -/
theorem c10_last_heading_wins (preText h bodyText : List Char)
    (hne : pyStrip h ≠ []) (hnl : '\n' ∉ h)
    (hbody : ∀ l ∈ splitNl bodyText, startsWithL hdgSp l = false) :
    alookup
      (parse_markdown_sections (preText ++ ('\n' :: ((hdgSp ++ h) ++ ('\n' :: bodyText)))))
      (pyStrip h) = some (pyStrip bodyText) := by
  unfold parse_markdown_sections
  rw [splitNl_append preText ((hdgSp ++ h) ++ ('\n' :: bodyText))]
  rw [splitNl_append (hdgSp ++ h) bodyText]
  have hnlh : '\n' ∉ hdgSp ++ h := by
    intro hm
    rcases List.mem_append.mp hm with hm1 | hm2
    · simp [hdgSp] at hm1
    · exact hnl hm2
  rw [splitNl_no_nl (hdgSp ++ h) hnlh, List.singleton_append]
  rw [sectionsGo_last_heading (splitNl preText) (splitNl bodyText) h none [] [] hne hbody]
  rw [joinNl_splitNl]

/-- Witness for C10: the input has heading `A` twice; lookup returns the body of
the second occurrence (`new`), not the first (`old`). -/
theorem c10_witness :
    alookup
      (parse_markdown_sections
        ((['#', '#', ' ', 'A', '\n', 'o', 'l', 'd'] : List Char) ++
          ('\n' :: ((hdgSp ++ ['A']) ++ ('\n' :: ['n', 'e', 'w'])))))
      (pyStrip ['A']) = some (pyStrip ['n', 'e', 'w']) :=
  c10_last_heading_wins ['#', '#', ' ', 'A', '\n', 'o', 'l', 'd'] ['A'] ['n', 'e', 'w']
    (by decide) (by decide) (by decide)

/-- `True` of characters other than `'*'` (the class `[^*]` of the bold regex). -/
def notStar (c : Char) : Bool := decide (c ≠ '*')

/-- Try to match `\*\*[^*]+\*\*` at the start of the string, returning the inner
text and the remainder after the closing `'**'`. -/
def tryMatchAt (s : List Char) : Option (List Char × List Char) :=
  match s with
  | c1 :: c2 :: t =>
    if c1 = '*' ∧ c2 = '*' then
      if t.takeWhile notStar = [] then none
      else
        match t.dropWhile notStar with
        | r1 :: r2 :: r =>
          if r1 = '*' ∧ r2 = '*' then some (t.takeWhile notStar, r) else none
        | _ => none
    else none
  | _ => none

/-- Leftmost match of `\*\*[^*]+\*\*`: the text before the match, the inner text,
and the remainder after the match. -/
def findMatch : List Char → Option (List Char × List Char × List Char)
  | [] => none
  | c :: t =>
    match tryMatchAt (c :: t) with
    | some q => some ([], q.1, q.2)
    | none => (findMatch t).map (fun q => (c :: q.1, q.2.1, q.2.2))

/-- The repeated-split loop of `re.split(r'(\*\*[^*]+\*\*)', text)`: alternating
unmatched parts and captured `'**...**'` parts (fuel-bounded; the fuel
`s.length` always suffices since every match consumes at least five characters). -/
def splitBoldGo : ℕ → List Char → List (List Char)
  | 0, s => [s]
  | fuel + 1, s =>
    match findMatch s with
    | none => [s]
    | some q => q.1 :: ('*' :: '*' :: (q.2.1 ++ ['*', '*'])) :: splitBoldGo fuel q.2.2

/-- `re.split(r'(\*\*[^*]+\*\*)', text)` with the capture group included. -/
def reSplitBold (s : List Char) : List (List Char) := splitBoldGo s.length s

/-- One styled run emitted by `render_inline_bold`. -/
structure Segment where
  text : List Char
  bold : Bool
deriving DecidableEq

/-- Python `part[2:-2]`. -/
def pySlice2m2 (p : List Char) : List Char := (p.drop 2).take (p.length - 4)

/-- Python `part.endswith('**')`. -/
def endsWithStars (p : List Char) : Bool := startsWithL ['*', '*'] (p.drop (p.length - 2))

/-- The per-part classification of `render_inline_bold`: a part that starts and
ends with `'**'` becomes one bold run with the delimiters sliced off; a nonempty
other part becomes one plain run; an empty part is skipped. -/
def segOf (p : List Char) : List Segment :=
  if startsWithL ['*', '*'] p && endsWithStars p then
    [{ text := pySlice2m2 p, bold := true }]
  else if p = [] then []
  else [{ text := p, bold := false }]

/-- Emit the runs of all split parts in order. -/
def segsOfParts : List (List Char) → List Segment
  | [] => []
  | p :: ps => segOf p ++ segsOfParts ps

/-- `render_inline_bold` from the source, abstracted to the sequence of styled
runs it adds to the paragraph. -/
def render_inline_bold (text : List Char) : List Segment :=
  segsOfParts (reSplitBold text)

/-- Concatenation of the emitted run texts. -/
def joinSegs (segs : List Segment) : List Char := (segs.map Segment.text).flatten

/-- Modelled from the claim's words: the original text with the `'**'` markers
removed, scanning left to right. -/
def claimRemoveMarkers : List Char → List Char
  | [] => []
  | [c] => [c]
  | c :: c2 :: t2 =>
    if c = '*' ∧ c2 = '*' then claimRemoveMarkers t2
    else c :: claimRemoveMarkers (c2 :: t2)

/-- A part that is exactly a matched bold span `'**' ++ inner ++ '**'`. -/
def matchShapeB (p : List Char) : Bool :=
  match tryMatchAt p with
  | some q => q.2.isEmpty
  | none => false

/-- Characters of a `takeWhile` result satisfy the predicate. -/
theorem mem_takeWhile_pred (p : Char → Bool) :
    ∀ (l : List Char) (c : Char), c ∈ l.takeWhile p → p c = true := by
  intro l
  induction l with
  | nil => intro c hc; simp [List.takeWhile] at hc
  | cons x xs ih =>
    intro c hc
    rw [List.takeWhile_cons] at hc
    by_cases hx : p x = true
    · rw [if_pos hx] at hc
      rcases List.mem_cons.mp hc with h | h
      · exact h ▸ hx
      · exact ih c h
    · rw [if_neg hx] at hc
      simp at hc

/-- `takeWhile`/`dropWhile` on a list of good characters followed by a bad one. -/
theorem takeWhile_all_append (p : Char → Bool) (a : List Char) (b0 : Char) (bs : List Char)
    (ha : ∀ c ∈ a, p c = true) (hb : p b0 = false) :
    (a ++ b0 :: bs).takeWhile p = a ∧ (a ++ b0 :: bs).dropWhile p = b0 :: bs := by
  induction a with
  | nil => simp [List.takeWhile_cons, List.dropWhile_cons, hb]
  | cons x xs ih =>
    have hx : p x = true := ha x (List.mem_cons_self x xs)
    have ih' := ih (fun c hc => ha c (List.mem_cons_of_mem x hc))
    simp [List.takeWhile_cons, List.dropWhile_cons, hx, ih'.1, ih'.2]

/-- Structure of a successful `tryMatchAt`. -/
theorem tryMatchAt_some_eq (s inner rest : List Char)
    (h : tryMatchAt s = some (inner, rest)) :
    s = '*' :: '*' :: (inner ++ '*' :: '*' :: rest) ∧ inner ≠ [] ∧
      ∀ c ∈ inner, notStar c = true := by
  cases s with
  | nil => simp [tryMatchAt] at h
  | cons c1 s1 =>
    cases s1 with
    | nil => simp [tryMatchAt] at h
    | cons c2 t =>
      simp only [tryMatchAt] at h
      by_cases h12 : c1 = '*' ∧ c2 = '*'
      · rw [if_pos h12] at h
        by_cases hrun : t.takeWhile notStar = []
        · rw [if_pos hrun] at h; simp at h
        · rw [if_neg hrun] at h
          cases hd : t.dropWhile notStar with
          | nil => rw [hd] at h; simp at h
          | cons r1 rs1 =>
            cases rs1 with
            | nil => rw [hd] at h; simp at h
            | cons r2 r =>
              rw [hd] at h
              have h' : (if r1 = '*' ∧ r2 = '*' then
                  some (t.takeWhile notStar, r) else none) = some (inner, rest) := h
              by_cases h34 : r1 = '*' ∧ r2 = '*'
              · rw [if_pos h34] at h'
                simp only [Option.some.injEq, Prod.mk.injEq] at h'
                obtain ⟨hin, hr⟩ := h'
                refine ⟨?_, ?_, ?_⟩
                · have ht : t = inner ++ '*' :: '*' :: rest := by
                    conv_lhs => rw [← List.takeWhile_append_dropWhile (p := notStar) (l := t)]
                    rw [hin, hd, h34.1, h34.2, hr]
                  rw [h12.1, h12.2, ht]
                · rw [← hin]; exact hrun
                · intro c hc
                  exact mem_takeWhile_pred notStar t c (hin ▸ hc)
              · rw [if_neg h34] at h'; simp at h'
      · rw [if_neg h12] at h; simp at h

/-- `tryMatchAt` succeeds on a full bold span followed by anything. -/
theorem tryMatchAt_shape_append (inner r : List Char) (hne : inner ≠ [])
    (hstar : ∀ c ∈ inner, notStar c = true) :
    tryMatchAt ('*' :: '*' :: (inner ++ '*' :: '*' :: r)) = some (inner, r) := by
  obtain ⟨htw, hdw⟩ :=
    takeWhile_all_append notStar inner '*' ('*' :: r) hstar (by decide)
  show (if (inner ++ '*' :: '*' :: r).takeWhile notStar = [] then none
      else
        match (inner ++ '*' :: '*' :: r).dropWhile notStar with
        | r1 :: r2 :: rr =>
          if r1 = '*' ∧ r2 = '*' then
            some ((inner ++ '*' :: '*' :: r).takeWhile notStar, rr)
          else none
        | _ => none) = some (inner, r)
  rw [htw, hdw, if_neg hne]
  show (if ('*' : Char) = '*' ∧ ('*' : Char) = '*' then some (inner, r) else none) =
    some (inner, r)
  rw [if_pos ⟨rfl, rfl⟩]

/-- Structure of a successful `findMatch`: the input decomposes as the unmatched
text, the span, and the remainder; moreover either the match is at the very
start or no match starts at position zero. -/
theorem findMatch_eq :
    ∀ (s pre inner rest : List Char), findMatch s = some (pre, inner, rest) →
      s = pre ++ '*' :: '*' :: (inner ++ '*' :: '*' :: rest) ∧ inner ≠ [] ∧
        (∀ c ∈ inner, notStar c = true) ∧ (pre = [] ∨ tryMatchAt s = none) := by
  intro s
  induction s with
  | nil => intro pre inner rest h; simp [findMatch] at h
  | cons c t ih =>
    intro pre inner rest h
    simp only [findMatch] at h
    cases htry : tryMatchAt (c :: t) with
    | some q =>
      rw [htry] at h
      obtain ⟨q1, q2⟩ := q
      simp only [Option.some.injEq, Prod.mk.injEq] at h
      obtain ⟨h1, h2, h3⟩ := h
      obtain ⟨hshape, hne, hstar⟩ := tryMatchAt_some_eq (c :: t) q1 q2 htry
      subst h1 h2 h3
      exact ⟨by rw [List.nil_append]; exact hshape, hne, hstar, Or.inl rfl⟩
    | none =>
      rw [htry] at h
      cases hf : findMatch t with
      | none => rw [hf] at h; simp at h
      | some q =>
        rw [hf] at h
        obtain ⟨p1, p2, p3⟩ := q
        simp only [Option.map, Option.some.injEq, Prod.mk.injEq] at h
        obtain ⟨h1, h2, h3⟩ := h
        obtain ⟨hshape, hne, hstar, _⟩ := ih p1 p2 p3 hf
        subst h1 h2 h3
        refine ⟨?_, hne, hstar, Or.inr rfl⟩
        rw [List.cons_append, ← hshape]

/-- A match consumes at least one character of the input. -/
theorem findMatch_rest_length (s pre inner rest : List Char)
    (h : findMatch s = some (pre, inner, rest)) : rest.length + 1 ≤ s.length := by
  obtain ⟨hs, hne, _, _⟩ := findMatch_eq s pre inner rest h
  have hpos : 0 < inner.length := List.length_pos.mpr hne
  rw [hs]
  simp [List.length_append]
  omega

/-- Removing markers behind a non-asterisk head. -/
theorem claimRemoveMarkers_cons_ne (c : Char) (x : List Char) (hc : c ≠ '*') :
    claimRemoveMarkers (c :: x) = c :: claimRemoveMarkers x := by
  cases x with
  | nil => rfl
  | cons c2 t2 =>
    rw [claimRemoveMarkers]
    rw [if_neg (fun hh => hc hh.1)]

/-- Removing markers consumes a leading `'**'`. -/
theorem claimRemoveMarkers_stars (t : List Char) :
    claimRemoveMarkers ('*' :: '*' :: t) = claimRemoveMarkers t := by
  rw [claimRemoveMarkers, if_pos ⟨rfl, rfl⟩]

/-- Marker removal is the identity on asterisk-free text. -/
theorem claimRemoveMarkers_starFree :
    ∀ s : List Char, (∀ c ∈ s, notStar c = true) → claimRemoveMarkers s = s := by
  intro s
  induction s with
  | nil => intro _; rfl
  | cons c t ih =>
    intro h
    have hc : c ≠ '*' := by
      have := h c (List.mem_cons_self c t)
      simpa [notStar] using this
    rw [claimRemoveMarkers_cons_ne c t hc, ih (fun x hx => h x (List.mem_cons_of_mem c hx))]

/-- Marker removal skips over an asterisk-free prefix. -/
theorem claimRemoveMarkers_append_starFree :
    ∀ (a b : List Char), (∀ c ∈ a, notStar c = true) →
      claimRemoveMarkers (a ++ b) = a ++ claimRemoveMarkers b := by
  intro a
  induction a with
  | nil => intro b _; rfl
  | cons c t ih =>
    intro b h
    have hc : c ≠ '*' := by
      have := h c (List.mem_cons_self c t)
      simpa [notStar] using this
    rw [List.cons_append, claimRemoveMarkers_cons_ne c (t ++ b) hc,
      ih b (fun x hx => h x (List.mem_cons_of_mem c hx)), List.cons_append]

/-- An asterisk-free split part is emitted verbatim as (at most) one plain run. -/
theorem segOf_starFree (p : List Char) (h : ∀ c ∈ p, notStar c = true) :
    joinSegs (segOf p) = p := by
  cases p with
  | nil => rfl
  | cons c t =>
    have hc : c ≠ '*' := by
      have := h c (List.mem_cons_self c t)
      simpa [notStar] using this
    have h1 : ('*' : Char) ≠ c := fun he => hc he.symm
    have hsw : startsWithL ['*', '*'] (c :: t) = false := by
      simp [startsWithL, h1]
    simp [segOf, hsw, joinSegs]

/-- A captured bold span is emitted as one bold run holding exactly its inner text. -/
theorem segOf_matchPart (inner : List Char) :
    segOf ('*' :: '*' :: (inner ++ ['*', '*'])) = [{ text := inner, bold := true }] := by
  have hlen : ('*' :: '*' :: (inner ++ ['*', '*'])).length = inner.length + 4 := by
    simp [List.length_append]
  have hsw : startsWithL ['*', '*'] ('*' :: '*' :: (inner ++ ['*', '*'])) = true := by
    simp [startsWithL]
  have hends : endsWithStars ('*' :: '*' :: (inner ++ ['*', '*'])) = true := by
    unfold endsWithStars
    rw [hlen]
    have h2 : inner.length + 4 - 2 = inner.length + 1 + 1 := by omega
    rw [h2, List.drop_succ_cons, List.drop_succ_cons, List.drop_left]
    rfl
  have hslice : pySlice2m2 ('*' :: '*' :: (inner ++ ['*', '*'])) = inner := by
    unfold pySlice2m2
    rw [hlen]
    have h4 : inner.length + 4 - 4 = inner.length := by omega
    rw [h4, show ('*' :: '*' :: (inner ++ ['*', '*'])).drop 2 = inner ++ ['*', '*'] from rfl,
      List.take_left]
  simp [segOf, hsw, hends, hslice]

/-- The run texts of consecutive part groups concatenate. -/
theorem joinSegs_append (a b : List Segment) :
    joinSegs (a ++ b) = joinSegs a ++ joinSegs b := by
  simp [joinSegs]

/-- Main induction for the amended C8: on input whose split parts are captured
spans or asterisk-free text, the concatenated run texts equal the input with the
`'**'` markers removed. -/
theorem splitBold_join (fuel : ℕ) :
    ∀ s : List Char, s.length ≤ fuel →
      (∀ p ∈ splitBoldGo fuel s, matchShapeB p = true ∨ ∀ c ∈ p, notStar c = true) →
      joinSegs (segsOfParts (splitBoldGo fuel s)) = claimRemoveMarkers s := by
  induction fuel with
  | zero =>
    intro s hlen _
    have hs : s = [] := List.eq_nil_of_length_eq_zero (Nat.le_zero.mp hlen)
    subst hs
    decide
  | succ fuel ih =>
    intro s hlen hH
    cases hfm : findMatch s with
    | none =>
      have hparts : splitBoldGo (fuel + 1) s = [s] := by
        simp [splitBoldGo, hfm]
      rw [hparts] at hH ⊢
      have hs := hH s (List.mem_singleton.mpr rfl)
      rcases hs with hms | hsf
      · exfalso
        unfold matchShapeB at hms
        cases ht : tryMatchAt s with
        | none => rw [ht] at hms; simp at hms
        | some q =>
          cases s with
          | nil => exact absurd ht (by simp [tryMatchAt])
          | cons c t =>
            have : findMatch (c :: t) = some ([], q.1, q.2) := by
              simp only [findMatch, ht]
            rw [hfm] at this
            exact absurd this (by simp)
      · calc joinSegs (segsOfParts [s]) = joinSegs (segOf s) := by
              simp [segsOfParts, joinSegs]
        _ = s := segOf_starFree s hsf
        _ = claimRemoveMarkers s := (claimRemoveMarkers_starFree s hsf).symm
    | some q =>
      obtain ⟨pre, inner, rest⟩ := q
      have hparts : splitBoldGo (fuel + 1) s =
          pre :: ('*' :: '*' :: (inner ++ ['*', '*'])) :: splitBoldGo fuel rest := by
        simp [splitBoldGo, hfm]
      obtain ⟨hs, hne, hstar, hpre0⟩ := findMatch_eq s pre inner rest hfm
      have hpreH := hH pre (by rw [hparts]; exact List.mem_cons_self _ _)
      have hpreSF : ∀ c ∈ pre, notStar c = true := by
        rcases hpreH with hm | hsf
        · exfalso
          unfold matchShapeB at hm
          cases ht : tryMatchAt pre with
          | none => rw [ht] at hm; simp at hm
          | some q2 =>
            rw [ht] at hm
            obtain ⟨i2, r2⟩ := q2
            simp only [List.isEmpty_iff] at hm
            subst hm
            obtain ⟨hp2, hne2, hstar2⟩ := tryMatchAt_some_eq pre i2 [] ht
            have hpre_ne : pre ≠ [] := by rw [hp2]; simp
            rcases hpre0 with h0 | h0
            · exact hpre_ne h0
            · have hysh : pre ++ '*' :: '*' :: (inner ++ '*' :: '*' :: rest) =
                  '*' :: '*' :: (i2 ++ '*' :: '*' ::
                    ('*' :: '*' :: (inner ++ '*' :: '*' :: rest))) := by
                rw [hp2]
                simp [List.append_assoc]
              have hsome := tryMatchAt_shape_append i2
                ('*' :: '*' :: (inner ++ '*' :: '*' :: rest)) hne2 hstar2
              rw [← hysh, ← hs, h0] at hsome
              exact absurd hsome (by simp)
        · exact hsf
      rw [hparts]
      have hjoin : segsOfParts (pre :: ('*' :: '*' :: (inner ++ ['*', '*'])) ::
          splitBoldGo fuel rest) =
          segOf pre ++ (segOf ('*' :: '*' :: (inner ++ ['*', '*'])) ++
            segsOfParts (splitBoldGo fuel rest)) := by
        simp [segsOfParts]
      rw [hjoin, joinSegs_append, joinSegs_append, segOf_starFree pre hpreSF,
        segOf_matchPart inner]
      have hrest : joinSegs (segsOfParts (splitBoldGo fuel rest)) =
          claimRemoveMarkers rest := by
        refine ih rest ?_ ?_
        · have := findMatch_rest_length s pre inner rest hfm
          omega
        · intro p hp
          exact hH p (by
            rw [hparts]
            exact List.mem_cons_of_mem _ (List.mem_cons_of_mem _ hp))
      rw [hrest, hs, claimRemoveMarkers_append_starFree pre _ hpreSF,
        claimRemoveMarkers_stars, claimRemoveMarkers_append_starFree inner _ hstar,
        claimRemoveMarkers_stars]
      simp [joinSegs, List.append_assoc]

/-- Claim C8 fails as stated: on the line `'***'` the part re-test
(`startswith('**') and endswith('**')`) fires on a stray part, `part[2:-2]`
slices away all three characters, and the joined segment texts lose the
asterisk that marker removal would keep (the joined texts are empty, and also
differ from the unchanged original). -/
theorem c8_counterexample :
    joinSegs (render_inline_bold ['*', '*', '*']) = [] ∧
    claimRemoveMarkers ['*', '*', '*'] = ['*'] ∧
    joinSegs (render_inline_bold ['*', '*', '*']) ≠ ['*', '*', '*'] := by
  refine ⟨?_, ?_, ?_⟩ <;> decide

/-- Amended claim C8: whenever every split part is either a captured
`'**...**'` span or asterisk-free text (in particular whenever every asterisk
of the line lies inside a well-formed bold span), joining the emitted segment
texts — bold spans with delimiters stripped, plain spans verbatim — yields the
original text with the `'**'` markers removed. -/
theorem c8_concat_amended (text : List Char)
    (h : ∀ p ∈ reSplitBold text, matchShapeB p = true ∨ ∀ c ∈ p, notStar c = true) :
    joinSegs (render_inline_bold text) = claimRemoveMarkers text := by
  unfold render_inline_bold reSplitBold
  exact splitBold_join text.length text le_rfl h

/-- The spec's own example line for the inline-bold segmentation. -/
def c8wText : List Char := ("**A** and **B**").data

/-- Witness for the amended C8 at the spec's example `"**A** and **B**"`. -/
theorem c8_witness : joinSegs (render_inline_bold c8wText) = claimRemoveMarkers c8wText :=
  c8_concat_amended c8wText (by decide)

/-- Gregorian leap-year test (as in Python's `calendar`/`datetime`). -/
def isLeap (y : ℕ) : Bool :=
  decide (y % 4 = 0) && (decide (y % 100 ≠ 0) || decide (y % 400 = 0))

/-- Days in a month. -/
def daysInMonth (m : ℕ) (leap : Bool) : ℕ :=
  if m = 2 then (if leap then 29 else 28)
  else if m = 4 ∨ m = 6 ∨ m = 9 ∨ m = 11 then 30
  else 31

/-- Days before the first of month `m` in a year with leap flag `leap`. -/
def daysBeforeMonth (m : ℕ) (leap : Bool) : ℕ :=
  (match m with
   | 1 => 0 | 2 => 31 | 3 => 59 | 4 => 90 | 5 => 120 | 6 => 151 | 7 => 181
   | 8 => 212 | 9 => 243 | 10 => 273 | 11 => 304 | _ => 334) +
  (if leap ∧ 3 ≤ m then 1 else 0)

/-- A calendar date; valid dates have `1 ≤ month ≤ 12`, `1 ≤ day ≤ daysInMonth`. -/
structure Date where
  year : ℕ
  month : ℕ
  day : ℕ
deriving DecidableEq

/-- Python `date.toordinal()`: proleptic-Gregorian day number with
`0001-01-01 ↦ 1`.  Python `datetime` subtraction and comparison coincide with
subtraction and comparison of these ordinals. -/
def dateOrd (d : Date) : ℕ :=
  365 * (d.year - 1) +
    ((d.year - 1) / 4 - (d.year - 1) / 100 + (d.year - 1) / 400) +
    daysBeforeMonth d.month (isLeap d.year) + d.day

/-- Numeric value of a digit character. -/
def digitVal (c : Char) : ℕ := c.toNat - '0'.toNat

/-- One field of `strptime('%Y-%m-%d')` after the year: CPython's `%m`/`%d`
match a two-digit value (`01..maxv`, never `00`) or a single digit `1-9`; when
two digits are present but form no valid two-digit value the overall parse can
never succeed (the next pattern character is a dash or end of string, which a
digit cannot satisfy), so it fails. -/
def parseField (maxv : ℕ) (s : List Char) : Option (ℕ × List Char) :=
  match s with
  | c1 :: c2 :: rest =>
    if c1.isDigit && c2.isDigit then
      if 1 ≤ digitVal c1 * 10 + digitVal c2 ∧ digitVal c1 * 10 + digitVal c2 ≤ maxv then
        some (digitVal c1 * 10 + digitVal c2, rest)
      else none
    else if c1.isDigit && decide (1 ≤ digitVal c1) then some (digitVal c1, c2 :: rest)
    else none
  | [c1] => if c1.isDigit && decide (1 ≤ digitVal c1) then some (digitVal c1, []) else none
  | [] => none

/-- `datetime.strptime(s, '%Y-%m-%d')` on the whole string: exactly four year
digits, dashes, month and day fields, no trailing characters, then `datetime`
range validation (year ≥ 1, day within the month). -/
def parseYMD (s : List Char) : Option Date :=
  match s with
  | y1 :: y2 :: y3 :: y4 :: '-' :: rest =>
    if y1.isDigit && y2.isDigit && y3.isDigit && y4.isDigit then
      let y := ((digitVal y1 * 10 + digitVal y2) * 10 + digitVal y3) * 10 + digitVal y4
      (parseField 12 rest).bind fun mr =>
        match mr.2 with
        | '-' :: rest2 =>
          (parseField 31 rest2).bind fun dr =>
            match dr.2 with
            | [] =>
              if 1 ≤ y ∧ 1 ≤ dr.1 ∧ dr.1 ≤ daysInMonth mr.1 (isLeap y) then
                some ⟨y, mr.1, dr.1⟩
              else none
            | _ => none
        | _ => none
    else none
  | _ => none

/-- The timeline engine's date parse: truncate to ten characters, then
`strptime('%Y-%m-%d')`. -/
def parseDate10 (text : List Char) : Option Date := parseYMD (text.take 10)

/-- A timeline stage (`{name, startDate, endDate}`); a missing field is `none`
and an empty string is falsy, like the Python `stage.get(...)` accesses. -/
structure Stage where
  name : List Char
  startDate : Option (List Char)
  endDate : Option (List Char)
deriving DecidableEq

/-- A milestone (`{name, targetDate, status, isPayment, startDate, endDate}`). -/
structure Milestone where
  name : List Char
  targetDate : Option (List Char)
  status : List Char
  isPayment : Bool
  startDate : Option (List Char)
  endDate : Option (List Char)
deriving DecidableEq

/-- An epic group of the timeline payload. -/
structure EpicGroup where
  epicName : List Char
  stages : List Stage
  milestones : List Milestone
deriving DecidableEq

/-- The `timeline` object of the payload. -/
structure TimelineData where
  epicGroups : List EpicGroup
  unlinkedMilestones : List Milestone
deriving DecidableEq

/-- Python truthiness of an optional string field (`None` and `''` are falsy). -/
def pyTruthyS : Option (List Char) → Bool
  | none => false
  | some s => decide (s ≠ [])

/-- Date strings contributed by a stage list (truthy `startDate` then truthy
`endDate` of each stage, in order). -/
def datesOfStages : List Stage → List (List Char)
  | [] => []
  | st :: r =>
    ((if pyTruthyS st.startDate then [st.startDate.getD []] else []) ++
      (if pyTruthyS st.endDate then [st.endDate.getD []] else [])) ++ datesOfStages r

/-- Date strings contributed by a milestone list (truthy `targetDate`s). -/
def datesOfMilestones : List Milestone → List (List Char)
  | [] => []
  | ms :: r =>
    (if pyTruthyS ms.targetDate then [ms.targetDate.getD []] else []) ++ datesOfMilestones r

/-- Date strings contributed by the epic groups (stages then milestones of each). -/
def datesOfGroups : List EpicGroup → List (List Char)
  | [] => []
  | eg :: r => datesOfStages eg.stages ++ datesOfMilestones eg.milestones ++ datesOfGroups r

/-- `all_dates` of `create_timeline_slide`. -/
def collectDates (tl : TimelineData) : List (List Char) :=
  datesOfGroups tl.epicGroups ++ datesOfMilestones tl.unlinkedMilestones

/-- Python string `<` (lexicographic by code point). -/
def lexLt : List Char → List Char → Bool
  | [], [] => false
  | [], _ :: _ => true
  | _ :: _, [] => false
  | a :: as, b :: bs => if a = b then lexLt as bs else decide (a < b)

/-- Value of `all_dates[0]` after `all_dates.sort()` (the lexicographic minimum). -/
def pyMinStr : List (List Char) → List Char → List Char
  | [], acc => acc
  | x :: r, acc => pyMinStr r (if lexLt x acc then x else acc)

/-- Value of `all_dates[-1]` after `all_dates.sort()` (the lexicographic maximum). -/
def pyMaxStr : List (List Char) → List Char → List Char
  | [], acc => acc
  | x :: r, acc => pyMaxStr r (if lexLt acc x then x else acc)

/-- `max(7, int((max_date - min_date).days * 0.05))`; the float multiplication
by `0.05` followed by `int()` truncation is modelled as exact truncating
division of `span * 5` by `100`. -/
def padCalc (span : ℤ) : ℤ := max 7 (Int.tdiv (span * 5) 100)

/-- The chart bounds computed at lines 558-565: start/end ordinals and
`total_days`. -/
structure GanttBounds where
  csOrd : ℤ
  ceOrd : ℤ
  totalDays : ℤ
deriving DecidableEq

/-- Parse the extreme date strings and compute the padded chart bounds;
`strptime` failure raises (modelled as `Except.error`). -/
def ganttBounds (minS maxS : List Char) : Except Unit GanttBounds :=
  match parseDate10 minS, parseDate10 maxS with
  | some dmin, some dmax =>
    .ok ⟨(dateOrd dmin : ℤ) - padCalc ((dateOrd dmax : ℤ) - (dateOrd dmin : ℤ)),
         (dateOrd dmax : ℤ) + padCalc ((dateOrd dmax : ℤ) - (dateOrd dmin : ℤ)),
         max (((dateOrd dmax : ℤ) + padCalc ((dateOrd dmax : ℤ) - (dateOrd dmin : ℤ))) -
           ((dateOrd dmin : ℤ) - padCalc ((dateOrd dmax : ℤ) - (dateOrd dmin : ℤ)))) 1⟩
  | _, _ => .error ()

/-- `Inches(3.2)` in EMU. -/
def chartLeftEmu : ℤ := 2926080

/-- `9.5 * 914400`: the chart width in EMU. -/
def chartWidthEmu : ℤ := 8686800

/-- `date_to_x`: the float expression `int(chart_width_in * frac * 914400)` with
`frac = (d - chart_start).days / total_days` is modelled as exact truncating
division (`Int.tdiv` truncates toward zero exactly like Python's `int()`). -/
def dateToX (csOrd totalDays dOrd : ℤ) : ℤ :=
  chartLeftEmu + Int.tdiv (chartWidthEmu * (dOrd - csOrd)) totalDays

/-- Month index of a date (months since year 0, January). -/
def monthIdx (d : Date) : ℕ := d.year * 12 + (d.month - 1)

/-- First day of the month with index `i`. -/
def mkMonthFirst (i : ℕ) : Date := ⟨i / 12, i % 12 + 1, 1⟩

/-- Ordinal of the first day of month index `i`. -/
def ordM (i : ℕ) : ℕ := dateOrd (mkMonthFirst i)

/-- The `while current <= chart_end` loop of `_draw_month_axis`: step one month
at a time, emit a tick (with its x position) for each month first lying at or
after `chart_start`.  Fuel-bounded; the supplied fuel always suffices. -/
def monthTicksGo (csO ceO : ℕ) (td : ℤ) : ℕ → ℕ → List (Date × ℤ)
  | 0, _ => []
  | fuel + 1, i =>
    if ordM i ≤ ceO then
      (if csO ≤ ordM i then [(mkMonthFirst i, dateToX (csO : ℤ) td (ordM i : ℤ))] else []) ++
        monthTicksGo csO ceO td fuel (i + 1)
    else []

/-- `_draw_month_axis` from the source, abstracted to the list of
(month-first, tick x) pairs it draws. -/
def monthTicks (cs ce : Date) (td : ℤ) : List (Date × ℤ) :=
  monthTicksGo (dateOrd cs) (dateOrd ce) td (dateOrd ce + 2) (monthIdx cs)

/-- `Emu(int(914400 * 0.1))`: the minimum stage-bar width. -/
def minBarEmu : ℤ := 91440

/-- The stage loop of the Gantt path: a stage with both dates truthy draws a bar
at `date_to_x(start)` with width `max(x(end) - x(start), minBar)`; other stages
are skipped; a `strptime` failure raises. -/
def barsOfStages (csO td : ℤ) : List Stage → Except Unit (List (ℤ × ℤ))
  | [] => .ok []
  | st :: r =>
    if pyTruthyS st.startDate && pyTruthyS st.endDate then
      match parseDate10 (st.startDate.getD []), parseDate10 (st.endDate.getD []) with
      | some ds, some de =>
        (barsOfStages csO td r).map fun bs =>
          (dateToX csO td (dateOrd ds),
            max (dateToX csO td (dateOrd de) - dateToX csO td (dateOrd ds)) minBarEmu) :: bs
      | _, _ => .error ()
    else barsOfStages csO td r

/-- The milestone loop: a milestone with a truthy target date draws a diamond at
`date_to_x(target)`; a `strptime` failure raises. -/
def dotsOfMilestones (csO td : ℤ) : List Milestone → Except Unit (List ℤ)
  | [] => .ok []
  | ms :: r =>
    if pyTruthyS ms.targetDate then
      match parseDate10 (ms.targetDate.getD []) with
      | some d =>
        (dotsOfMilestones csO td r).map fun ds => dateToX csO td (dateOrd d) :: ds
      | none => .error ()
    else dotsOfMilestones csO td r

/-- Bars and dots of all epic groups, in draw order. -/
def ganttOfGroups (csO td : ℤ) : List EpicGroup → Except Unit (List (ℤ × ℤ) × List ℤ)
  | [] => .ok ([], [])
  | eg :: r =>
    (barsOfStages csO td eg.stages).bind fun bs =>
      (dotsOfMilestones csO td eg.milestones).bind fun ds =>
        (ganttOfGroups csO td r).map fun rest => (bs ++ rest.1, ds ++ rest.2)

/-- Outcome of `create_timeline_slide`, abstracted to the data drawn. -/
inductive TimelineRender where
  | noData : TimelineRender
  | fallbackTable (rows : List Milestone) : TimelineRender
  | gantt (csOrd ceOrd totalDays : ℤ) (bars : List (ℤ × ℤ)) (dots : List ℤ) : TimelineRender
deriving DecidableEq

/-- The dispatch and drawing logic of `create_timeline_slide` (lines 521-667):
the "no data" note, the flat milestone-table fallback (capped at 15 rows), or
the Gantt chart; an uncaught `strptime` `ValueError` is `Except.error`. -/
def renderTimeline (tl : TimelineData) (allMs : List Milestone) : Except Unit TimelineRender :=
  if (tl.epicGroups.any fun eg => decide (eg.stages ≠ [])) = false ∧
      tl.unlinkedMilestones = [] ∧ allMs = [] then .ok .noData
  else if (tl.epicGroups.any fun eg => decide (eg.stages ≠ [])) = false then
    .ok (.fallbackTable (allMs.take 15))
  else
    match collectDates tl with
    | [] => .ok (.fallbackTable (allMs.take 15))
    | d0 :: rest =>
      (ganttBounds (pyMinStr rest d0) (pyMaxStr rest d0)).bind fun b =>
        (ganttOfGroups b.csOrd b.totalDays tl.epicGroups).bind fun gd =>
          (dotsOfMilestones b.csOrd b.totalDays tl.unlinkedMilestones).map fun ud =>
            .gantt b.csOrd b.ceOrd b.totalDays gd.1 (gd.2 ++ ud)

/-- `'#22c55e'`. -/
def greenHex : List Char := ("#22c55e").data

/-- `'#3b82f6'`. -/
def blueHex : List Char := ("#3b82f6").data

/-- `'#9ca3af'`. -/
def grayHex : List Char := ("#9ca3af").data

/-- The status-to-color mapping of `_draw_milestone_dot` (lines 714-720): the
fallthrough uses the deck's secondary brand color. -/
def dotStatusColor (status secondary : List Char) : List Char :=
  if status = ("completed").data then greenHex
  else if status = ("in-progress").data then blueHex
  else secondary

/-- The status-to-color mapping of `_draw_milestone_table_fallback`
(lines 768-776): `None` means no color override. -/
def tableStatusColor (status : List Char) : Option (List Char) :=
  if status = ("completed").data then some greenHex
  else if status = ("in-progress").data then some blueHex
  else if status = ("not-started").data then some grayHex
  else none

/-- The claim-side test of C2: does some stage carry both a start and an end date? -/
def stageBothExists (tl : TimelineData) : Bool :=
  tl.epicGroups.any fun eg =>
    eg.stages.any fun st => pyTruthyS st.startDate && pyTruthyS st.endDate

/-- Did the render take the milestone-table fallback path? -/
def isFallbackRender : Except Unit TimelineRender → Bool
  | .ok (.fallbackTable _) => true
  | _ => false

instance instDecEqExcept {ε α : Type} [DecidableEq ε] [DecidableEq α] :
    DecidableEq (Except ε α) := fun a b =>
  match a, b with
  | .error x, .error y =>
    match decEq x y with
    | isTrue h => isTrue (by rw [h])
    | isFalse h => isFalse (by intro hh; injection hh; contradiction)
  | .ok x, .ok y =>
    match decEq x y with
    | isTrue h => isTrue (by rw [h])
    | isFalse h => isFalse (by intro hh; injection hh; contradiction)
  | .error _, .ok _ => isFalse (by intro hh; injection hh)
  | .ok _, .error _ => isFalse (by intro hh; injection hh)

/-- A stage with a start date but no end date. -/
def c2Stage : Stage := ⟨("Design").data, some (("2024-01-01").data), none⟩

/-- Timeline with one epic group whose single stage lacks an end date. -/
def c2Tl : TimelineData := ⟨[⟨("Epic 1").data, [c2Stage], []⟩], []⟩

/-- Claim C2 fails as stated: here no stage has both a start and an end date,
yet the render does not take the milestone-table fallback (it draws the Gantt
frame), because the code only tests for a non-empty `stages` list and a
non-empty date pool. -/
theorem c2_counterexample :
    stageBothExists c2Tl = false ∧ isFallbackRender (renderTimeline c2Tl []) = false := by
  constructor
  · decide
  · decide

/-- A stage whose start date is not a parseable ISO date. -/
def c3Stage : Stage := ⟨("Build").data, some (("banana").data), some (("2024-01-31").data)⟩

/-- Timeline containing the malformed date. -/
def c3Tl : TimelineData := ⟨[⟨("Epic").data, [c3Stage], []⟩], []⟩

/-- Claim C3 is what the spec requires, but the code has no guard: a malformed
date string reaches `datetime.strptime`, which raises `ValueError` and aborts
the whole render instead of excluding the element. -/
theorem c3_malformed_date_raises : renderTimeline c3Tl [] = .error () := by decide

/-- Claim C4: within the chart bounds the date-to-x mapping is strictly
monotonic.  The hypothesis `totalDays ≤ 8686800` (chart width in EMU) always
holds in the source: Python dates span at most 3 652 058 days, so
`total_days = span + 2·pad ≤ 4 017 262`, keeping the per-day advance above one
EMU so that truncation cannot collapse two distinct days. -/
theorem c4_date_to_x_strict_mono (csOrd td o1 o2 : ℤ)
    (hlo : csOrd ≤ o1) (hlt : o1 < o2) (hhi : o2 ≤ csOrd + td) (hw : td ≤ 8686800) :
    dateToX csOrd td o1 < dateToX csOrd td o2 := by
  obtain ⟨A, hA⟩ : ∃ A : ℕ, o1 - csOrd = (A : ℤ) :=
    ⟨(o1 - csOrd).toNat, (Int.toNat_of_nonneg (by omega)).symm⟩
  obtain ⟨B, hB⟩ : ∃ B : ℕ, o2 - csOrd = (B : ℤ) :=
    ⟨(o2 - csOrd).toNat, (Int.toNat_of_nonneg (by omega)).symm⟩
  obtain ⟨T, hT⟩ : ∃ T : ℕ, td = (T : ℤ) :=
    ⟨td.toNat, (Int.toNat_of_nonneg (by omega)).symm⟩
  have hab : A < B := by omega
  have hBT : B ≤ T := by omega
  have hT8 : T ≤ 8686800 := by omega
  have hTpos : 0 < T := by omega
  have e1 : chartWidthEmu * (o1 - csOrd) = ((8686800 * A : ℕ) : ℤ) := by
    rw [hA]
    unfold chartWidthEmu
    push_cast
    ring
  have e2 : chartWidthEmu * (o2 - csOrd) = ((8686800 * B : ℕ) : ℤ) := by
    rw [hB]
    unfold chartWidthEmu
    push_cast
    ring
  unfold dateToX
  rw [e1, e2, hT]
  rw [show Int.tdiv ((8686800 * A : ℕ) : ℤ) ((T : ℕ) : ℤ) = ((8686800 * A / T : ℕ) : ℤ)
      from rfl,
    show Int.tdiv ((8686800 * B : ℕ) : ℤ) ((T : ℕ) : ℤ) = ((8686800 * B / T : ℕ) : ℤ)
      from rfl]
  have key : 8686800 * A / T + 1 ≤ 8686800 * B / T := by
    rw [Nat.le_div_iff_mul_le hTpos]
    have hq : 8686800 * A / T * T ≤ 8686800 * A := Nat.div_mul_le_self _ _
    calc (8686800 * A / T + 1) * T = 8686800 * A / T * T + T := by ring
    _ ≤ 8686800 * A + 8686800 := by omega
    _ = 8686800 * (A + 1) := by ring
    _ ≤ 8686800 * B := Nat.mul_le_mul_left _ (by omega)
  omega

/-- Witness for C4 at concrete chart data. -/
theorem c4_witness : dateToX 0 44 10 < dateToX 0 44 20 :=
  c4_date_to_x_strict_mono 0 44 10 20 (by decide) (by decide) (by decide) (by decide)

/-- Modelled from the claim's words: `round(0.05 * span)` under Python's
`round` (ties to even), then `max(7, ·)`. -/
def claimPadDays (span : ℕ) : ℕ :=
  max 7
    (if (span * 5 % 100) * 2 < 100 then span * 5 / 100
     else if 100 < (span * 5 % 100) * 2 then span * 5 / 100 + 1
     else if span * 5 / 100 % 2 = 0 then span * 5 / 100 else span * 5 / 100 + 1)

/-- Claim C5 fails in general: the code truncates (`int`), the claim rounds.
For a 150-day span (2024-01-01 to 2024-05-30) the code pads by
`max(7, int(7.5)) = 7` while the claim's formula gives `max(7, round(7.5)) = 8`,
so the claimed `chart_start` is one day earlier than the computed one. -/
theorem c5_counterexample :
    ganttBounds (("2024-01-01").data) (("2024-05-30").data) =
      .ok ⟨(dateOrd ⟨2024, 1, 1⟩ : ℤ) - 7, (dateOrd ⟨2024, 5, 30⟩ : ℤ) + 7, 164⟩ ∧
    claimPadDays 150 = 8 ∧
    (dateOrd ⟨2024, 1, 1⟩ : ℤ) - (claimPadDays 150 : ℤ) ≠ (dateOrd ⟨2024, 1, 1⟩ : ℤ) - 7 := by
  refine ⟨?_, ?_, ?_⟩ <;> decide

/-- Amended claim C5: for parseable extreme dates the bounds are
`chart_start = min - pad`, `chart_end = max + pad` with
`pad = max(7, int(0.05 * span))` (truncation, not rounding) and
`total_days = max(chart_end - chart_start, 1)`. -/
theorem c5_bounds_amended (minS maxS : List Char) (dmin dmax : Date)
    (hmin : parseDate10 minS = some dmin) (hmax : parseDate10 maxS = some dmax) :
    ganttBounds minS maxS =
      .ok ⟨(dateOrd dmin : ℤ) - padCalc ((dateOrd dmax : ℤ) - (dateOrd dmin : ℤ)),
           (dateOrd dmax : ℤ) + padCalc ((dateOrd dmax : ℤ) - (dateOrd dmin : ℤ)),
           max (((dateOrd dmax : ℤ) + padCalc ((dateOrd dmax : ℤ) - (dateOrd dmin : ℤ))) -
             ((dateOrd dmin : ℤ) - padCalc ((dateOrd dmax : ℤ) - (dateOrd dmin : ℤ)))) 1⟩ := by
  unfold ganttBounds
  rw [hmin, hmax]

/-- Witness for the amended C5 at the spec's own example: a single stage
2024-01-01 → 2024-01-31 yields `pad = 7`, `chart_start = 2023-12-25`,
`chart_end = 2024-02-07`, `total_days = 44`. -/
theorem c5_witness :
    ganttBounds (("2024-01-01").data) (("2024-01-31").data) =
      .ok ⟨(dateOrd ⟨2023, 12, 25⟩ : ℤ), (dateOrd ⟨2024, 2, 7⟩ : ℤ), 44⟩ := by
  rw [c5_bounds_amended (("2024-01-01").data) (("2024-01-31").data)
    ⟨2024, 1, 1⟩ ⟨2024, 1, 31⟩ (by decide) (by decide)]
  decide

/-- Claim C7 fails as stated: in the Gantt dot renderer a `'not-started'` (or
any unrecognised) status falls through to the secondary brand color, not to
neutral gray; and in the fallback table an unrecognised status gets no color
override rather than gray. -/
theorem c7_counterexample :
    dotStatusColor (("not-started").data) (("#E60CB3").data) = ("#E60CB3").data ∧
    dotStatusColor (("not-started").data) (("#E60CB3").data) ≠ grayHex ∧
    tableStatusColor (("review").data) = none := by
  refine ⟨?_, ?_, ?_⟩ <;> decide

/-- Amended claim C7: `completed` maps to green and `in-progress` to blue in
both renderers; `not-started` maps to gray only in the fallback table; any
other status keeps the secondary brand color in the Gantt dots and gets no
override in the table. -/
theorem c7_status_colors_amended (status secondary : List Char) :
    dotStatusColor (("completed").data) secondary = greenHex ∧
    tableStatusColor (("completed").data) = some greenHex ∧
    dotStatusColor (("in-progress").data) secondary = blueHex ∧
    tableStatusColor (("in-progress").data) = some blueHex ∧
    tableStatusColor (("not-started").data) = some grayHex ∧
    (status ≠ ("completed").data → status ≠ ("in-progress").data →
      dotStatusColor status secondary = secondary) ∧
    (status ≠ ("completed").data → status ≠ ("in-progress").data →
      status ≠ ("not-started").data → tableStatusColor status = none) := by
  refine ⟨?_, ?_, ?_, ?_, ?_, ?_, ?_⟩
  · simp [dotStatusColor]
  · decide
  · simp [dotStatusColor]
  · decide
  · decide
  · intro h1 h2
    simp [dotStatusColor, h1, h2]
  · intro h1 h2 h3
    simp [tableStatusColor, h1, h2, h3]

/-- Witness for the amended C7 at a concrete unrecognised status. -/
theorem c7_witness :
    dotStatusColor (("review").data) (("#E60CB3").data) = ("#E60CB3").data ∧
    tableStatusColor (("review").data) = none := by
  have h := c7_status_colors_amended (("review").data) (("#E60CB3").data)
  exact ⟨h.2.2.2.2.2.1 (by decide) (by decide),
    h.2.2.2.2.2.2 (by decide) (by decide) (by decide)⟩

/-- A stage list contributes no dates exactly when every stage's start and end
are falsy. -/
theorem datesOfStages_nil_iff (sts : List Stage) :
    datesOfStages sts = [] ↔
      (sts.all fun st => !pyTruthyS st.startDate && !pyTruthyS st.endDate) = true := by
  induction sts with
  | nil => simp [datesOfStages]
  | cons st r ih =>
    cases hs : pyTruthyS st.startDate <;> cases he : pyTruthyS st.endDate <;>
      simp [datesOfStages, hs, he, ih]

/-- A milestone list contributes no dates exactly when every target is falsy. -/
theorem datesOfMilestones_nil_iff (mss : List Milestone) :
    datesOfMilestones mss = [] ↔
      (mss.all fun ms => !pyTruthyS ms.targetDate) = true := by
  induction mss with
  | nil => simp [datesOfMilestones]
  | cons ms r ih =>
    cases ht : pyTruthyS ms.targetDate <;> simp [datesOfMilestones, ht, ih]

/-- The epic groups contribute no dates exactly when all their stages and
milestones have falsy dates. -/
theorem datesOfGroups_nil_iff (egs : List EpicGroup) :
    datesOfGroups egs = [] ↔
      (egs.all fun eg =>
        eg.stages.all (fun st => !pyTruthyS st.startDate && !pyTruthyS st.endDate) &&
          eg.milestones.all (fun ms => !pyTruthyS ms.targetDate)) = true := by
  induction egs with
  | nil => simp [datesOfGroups]
  | cons eg r ih =>
    simp [datesOfGroups, List.append_eq_nil, ih, datesOfStages_nil_iff,
      datesOfMilestones_nil_iff, and_assoc]

/-- `all_dates` is empty exactly when every stage/milestone date field is falsy. -/
theorem collectDates_nil_iff (tl : TimelineData) :
    collectDates tl = [] ↔
      ((tl.epicGroups.all fun eg =>
        eg.stages.all (fun st => !pyTruthyS st.startDate && !pyTruthyS st.endDate) &&
          eg.milestones.all (fun ms => !pyTruthyS ms.targetDate)) = true ∧
       (tl.unlinkedMilestones.all fun ms => !pyTruthyS ms.targetDate) = true) := by
  unfold collectDates
  rw [List.append_eq_nil, datesOfGroups_nil_iff, datesOfMilestones_nil_iff]

/-- No epic group has stages exactly when all stage lists are empty. -/
theorem hasGantt_false_iff (egs : List EpicGroup) :
    (egs.any fun eg => decide (eg.stages ≠ [])) = false ↔
      (egs.all fun eg => eg.stages.isEmpty) = true := by
  induction egs with
  | nil => simp
  | cons eg r ih =>
    cases hs : eg.stages with
    | nil => simp [hs, ih]
    | cons a b => simp [hs]

/-- The Gantt branch of the render never yields the fallback table or the
no-data note (it is a `.gantt` value or an uncaught date-parse error). -/
theorem ganttChain_shape (tl : TimelineData) (d0 : List Char) (rest : List (List Char)) :
    isFallbackRender ((ganttBounds (pyMinStr rest d0) (pyMaxStr rest d0)).bind fun b =>
        (ganttOfGroups b.csOrd b.totalDays tl.epicGroups).bind fun gd =>
          (dotsOfMilestones b.csOrd b.totalDays tl.unlinkedMilestones).map fun ud =>
            TimelineRender.gantt b.csOrd b.ceOrd b.totalDays gd.1 (gd.2 ++ ud)) = false ∧
      ((ganttBounds (pyMinStr rest d0) (pyMaxStr rest d0)).bind fun b =>
        (ganttOfGroups b.csOrd b.totalDays tl.epicGroups).bind fun gd =>
          (dotsOfMilestones b.csOrd b.totalDays tl.unlinkedMilestones).map fun ud =>
            TimelineRender.gantt b.csOrd b.ceOrd b.totalDays gd.1 (gd.2 ++ ud)) ≠
        .ok TimelineRender.noData := by
  cases hb : ganttBounds (pyMinStr rest d0) (pyMaxStr rest d0) with
  | error e => simp [Except.bind, isFallbackRender]
  | ok b =>
    cases hg : ganttOfGroups b.csOrd b.totalDays tl.epicGroups with
    | error e => simp [Except.bind, isFallbackRender, hg]
    | ok gd =>
      cases hu : dotsOfMilestones b.csOrd b.totalDays tl.unlinkedMilestones with
      | error e => simp [Except.bind, Except.map, isFallbackRender, hg, hu]
      | ok ud => simp [Except.bind, Except.map, isFallbackRender, hg, hu]

/-- Amended claim C2: the fallback table is drawn exactly when either no epic
group has a non-empty `stages` list (and some milestone exists to tabulate), or
stage lists exist but every stage start/end and milestone target date field is
missing or empty.  Whenever some stage has both dates the render is never the
fallback table nor the no-data note (it is the Gantt chart, or an uncaught
date-parse error). -/
theorem c2_fallback_iff (tl : TimelineData) (allMs : List Milestone) :
    (isFallbackRender (renderTimeline tl allMs) = true ↔
      (((tl.epicGroups.all fun eg => eg.stages.isEmpty) = true ∧
        (tl.unlinkedMilestones ≠ [] ∨ allMs ≠ [])) ∨
       ((tl.epicGroups.any fun eg => decide (eg.stages ≠ [])) = true ∧
        (tl.epicGroups.all fun eg =>
          eg.stages.all (fun st => !pyTruthyS st.startDate && !pyTruthyS st.endDate) &&
            eg.milestones.all (fun ms => !pyTruthyS ms.targetDate)) = true ∧
        (tl.unlinkedMilestones.all fun ms => !pyTruthyS ms.targetDate) = true))) ∧
    (stageBothExists tl = true →
      isFallbackRender (renderTimeline tl allMs) = false ∧
        renderTimeline tl allMs ≠ .ok TimelineRender.noData) := by
  constructor
  · by_cases hg : (tl.epicGroups.any fun eg => decide (eg.stages ≠ [])) = false
    · by_cases hrest : tl.unlinkedMilestones = [] ∧ allMs = []
      · unfold renderTimeline
        rw [if_pos ⟨hg, hrest.1, hrest.2⟩]
        constructor
        · intro habs; exact absurd habs (by simp [isFallbackRender])
        · rintro (⟨_, h2⟩ | ⟨h1, _⟩)
          · rcases h2 with h2 | h2
            · exact absurd hrest.1 h2
            · exact absurd hrest.2 h2
          · rw [hg] at h1; cases h1
      · unfold renderTimeline
        rw [if_neg (by intro hh; exact hrest ⟨hh.2.1, hh.2.2⟩), if_pos hg]
        constructor
        · intro _
          exact Or.inl ⟨(hasGantt_false_iff tl.epicGroups).mp hg, by
            rcases Decidable.not_and_iff_or_not.mp hrest with h | h
            · exact Or.inl h
            · exact Or.inr h⟩
        · intro _; rfl
    · have hg' : (tl.epicGroups.any fun eg => decide (eg.stages ≠ [])) = true := by
        revert hg; cases tl.epicGroups.any fun eg => decide (eg.stages ≠ []) <;> simp
      unfold renderTimeline
      rw [if_neg (by intro hh; rw [hg'] at hh; cases hh.1), if_neg (by intro hh; rw [hg'] at hh; cases hh)]
      cases hcd : collectDates tl with
      | nil =>
        constructor
        · intro _
          exact Or.inr ⟨hg', ((collectDates_nil_iff tl).mp hcd).1,
            ((collectDates_nil_iff tl).mp hcd).2⟩
        · intro _; rfl
      | cons d0 rest =>
        constructor
        · intro habs
          rw [(ganttChain_shape tl d0 rest).1] at habs
          cases habs
        · rintro (⟨h1, _⟩ | ⟨_, h2, h3⟩)
          · rw [(hasGantt_false_iff tl.epicGroups).mpr h1] at hg'
            cases hg'
          · rw [(collectDates_nil_iff tl).mpr ⟨h2, h3⟩] at hcd
            cases hcd
  · intro hsb
    simp only [stageBothExists, List.any_eq_true] at hsb
    obtain ⟨eg, heg, st, hst, hboth⟩ := hsb
    have hg' : (tl.epicGroups.any fun eg => decide (eg.stages ≠ [])) = true := by
      simp only [List.any_eq_true, decide_eq_true_eq]
      exact ⟨eg, heg, List.ne_nil_of_mem hst⟩
    have hcdne : collectDates tl ≠ [] := by
      intro hnil
      obtain ⟨hgs, _⟩ := (collectDates_nil_iff tl).mp hnil
      simp only [List.all_eq_true, Bool.and_eq_true] at hgs
      have hfal := ((hgs eg heg).1 st hst).1
      rw [Bool.and_eq_true] at hboth
      rw [hboth.1] at hfal
      cases hfal
    unfold renderTimeline
    rw [if_neg (by intro hh; rw [hg'] at hh; cases hh.1),
      if_neg (by intro hh; rw [hg'] at hh; cases hh)]
    cases hcd : collectDates tl with
    | nil => exact absurd hcd hcdne
    | cons d0 rest => exact ganttChain_shape tl d0 rest

/-- A timeline whose single stage has both dates, for the C2 witness. -/
def c2wTl : TimelineData :=
  ⟨[⟨("Epic W").data, [⟨("Stage W").data, some (("2024-01-01").data),
    some (("2024-01-31").data)⟩], []⟩], []⟩

/-- Witness for the amended C2: with a fully dated stage the render is neither
the fallback table nor the no-data note. -/
theorem c2_witness :
    isFallbackRender (renderTimeline c2wTl []) = false ∧
      renderTimeline c2wTl [] ≠ .ok TimelineRender.noData :=
  (c2_fallback_iff c2wTl []).2 (by decide)

/-- `daysBeforeMonth` grows strictly from one month to the next within a year. -/
theorem dbm_lt (m : ℕ) (lp : Bool) (h1 : 1 ≤ m) (h2 : m ≤ 11) :
    daysBeforeMonth m lp < daysBeforeMonth (m + 1) lp := by
  interval_cases m <;> cases lp <;> decide

/-- `ordM` written out. -/
theorem ordM_eq (i : ℕ) :
    ordM i = 365 * (i / 12 - 1) +
      ((i / 12 - 1) / 4 - (i / 12 - 1) / 100 + (i / 12 - 1) / 400) +
      daysBeforeMonth (i % 12 + 1) (isLeap (i / 12)) + 1 := rfl

/-- `dateOrd` on an explicit date. -/
theorem dateOrd_mk (y m d : ℕ) :
    dateOrd ⟨y, m, d⟩ = 365 * (y - 1) + ((y - 1) / 4 - (y - 1) / 100 + (y - 1) / 400) +
      daysBeforeMonth m (isLeap y) + d := rfl

/-- Month-first ordinals grow strictly from one month index to the next
(for indices at or after year one). -/
theorem ordM_step (i : ℕ) (h12 : 12 ≤ i) : ordM i < ordM (i + 1) := by
  by_cases hk : i % 12 ≤ 10
  · have h1 : (i + 1) / 12 = i / 12 := by omega
    have h2 : (i + 1) % 12 = i % 12 + 1 := by omega
    have hd := dbm_lt (i % 12 + 1) (isLeap (i / 12)) (by omega) (by omega)
    rw [ordM_eq, ordM_eq, h1, h2]
    omega
  · have hk11 : i % 12 = 11 := by omega
    have h1 : (i + 1) / 12 = i / 12 + 1 := by omega
    have h2 : (i + 1) % 12 = 0 := by omega
    have hy : 1 ≤ i / 12 := by omega
    have e1 : daysBeforeMonth (11 + 1) (isLeap (i / 12)) ≤ 335 := by
      cases hlp : isLeap (i / 12) <;> simp [daysBeforeMonth]
    have e2 : daysBeforeMonth (0 + 1) (isLeap (i / 12 + 1)) = 0 := by
      cases hlp : isLeap (i / 12 + 1) <;> simp [daysBeforeMonth]
    rw [ordM_eq, ordM_eq, h1, h2, hk11]
    omega

/-- Strict monotonicity of month-first ordinals. -/
theorem ordM_lt_of_lt (i j : ℕ) (h12 : 12 ≤ i) (hij : i < j) : ordM i < ordM j := by
  induction j with
  | zero => omega
  | succ j ihj =>
    rcases Nat.lt_succ_iff_lt_or_eq.mp hij with h | h
    · exact lt_trans (ihj h) (ordM_step j (by omega))
    · rw [h]
      exact ordM_step j (h ▸ h12)

/-- Monotonicity of month-first ordinals. -/
theorem ordM_le_of_le (i j : ℕ) (h12 : 12 ≤ i) (hij : i ≤ j) : ordM i ≤ ordM j := by
  rcases Nat.eq_or_lt_of_le hij with h | h
  · rw [h]
  · exact le_of_lt (ordM_lt_of_lt i j h12 h)

/-- Membership in the month-axis loop output: exactly the month firsts between
`chart_start` and `chart_end`, each paired with its computed x position. -/
theorem ticksGo_mem (csO ceO : ℕ) (td : ℤ) (fuel : ℕ) :
    ∀ i : ℕ, 12 ≤ i → ceO + 1 ≤ ordM i + fuel →
      ∀ t : Date × ℤ,
        (t ∈ monthTicksGo csO ceO td fuel i ↔
          ∃ j, i ≤ j ∧ csO ≤ ordM j ∧ ordM j ≤ ceO ∧
            t = (mkMonthFirst j, dateToX (csO : ℤ) td (ordM j : ℤ))) := by
  induction fuel with
  | zero =>
    intro i h12 hsuff t
    simp only [monthTicksGo, List.not_mem_nil, false_iff, not_exists]
    intro j hconj
    obtain ⟨hij, _, hce, _⟩ := hconj
    have hle : ordM i ≤ ordM j := ordM_le_of_le i j h12 hij
    omega
  | succ fuel ih =>
    intro i h12 hsuff t
    by_cases hle : ordM i ≤ ceO
    · have hstep : ordM i < ordM (i + 1) := ordM_step i h12
      have hmem : monthTicksGo csO ceO td (fuel + 1) i =
          (if csO ≤ ordM i then [(mkMonthFirst i, dateToX (csO : ℤ) td (ordM i : ℤ))]
           else []) ++ monthTicksGo csO ceO td fuel (i + 1) := by
        rw [monthTicksGo, if_pos hle]
      rw [hmem, List.mem_append, ih (i + 1) (by omega) (by omega) t]
      constructor
      · rintro (h1 | ⟨j, hj, hjcs, hjce, ht⟩)
        · by_cases hcs : csO ≤ ordM i
          · rw [if_pos hcs] at h1
            rw [List.mem_singleton] at h1
            exact ⟨i, le_refl i, hcs, hle, h1⟩
          · rw [if_neg hcs] at h1
            cases h1
        · exact ⟨j, by omega, hjcs, hjce, ht⟩
      · rintro ⟨j, hj, hjcs, hjce, ht⟩
        rcases Nat.eq_or_lt_of_le hj with hji | hji
        · left
          rw [← hji] at hjcs ht
          rw [if_pos hjcs, List.mem_singleton]
          exact ht
        · right
          exact ⟨j, by omega, hjcs, hjce, ht⟩
    · have hnil : monthTicksGo csO ceO td (fuel + 1) i = [] := by
        rw [monthTicksGo, if_neg hle]
      rw [hnil]
      simp only [List.not_mem_nil, false_iff, not_exists]
      intro j hconj
      obtain ⟨hij, _, hjce, _⟩ := hconj
      have := ordM_le_of_le i j h12 hij
      omega

/-- The month-first of the month containing a valid date lies at or before it. -/
theorem ordM_monthIdx_le (cs : Date) (hm1 : 1 ≤ cs.month) (hm2 : cs.month ≤ 12)
    (hd1 : 1 ≤ cs.day) : ordM (monthIdx cs) ≤ dateOrd cs := by
  have hmk : mkMonthFirst (monthIdx cs) = ⟨cs.year, cs.month, 1⟩ := by
    unfold mkMonthFirst monthIdx
    have e1 : (cs.year * 12 + (cs.month - 1)) / 12 = cs.year := by omega
    have e2 : (cs.year * 12 + (cs.month - 1)) % 12 + 1 = cs.month := by omega
    rw [e1, e2]
  unfold ordM
  rw [hmk]
  have hcs : cs = ⟨cs.year, cs.month, cs.day⟩ := rfl
  conv_rhs => rw [hcs]
  rw [dateOrd_mk, dateOrd_mk]
  omega

/-- Amended claim C6: a month first `(y, m, 1)` gets a tick (at
`x(first day of that month)`) exactly when it lies within
`[chart_start, chart_end]`.  In particular the month containing `chart_start`
gets a tick only when `chart_start` falls on the first of the month: the loop
guard `current >= chart_start` skips the month first preceding a mid-month
`chart_start`. -/
theorem c6_month_axis_amended (cs ce : Date) (td : ℤ)
    (hy : 1 ≤ cs.year) (hm1 : 1 ≤ cs.month) (hm2 : cs.month ≤ 12) (hd1 : 1 ≤ cs.day)
    (y m : ℕ) (x : ℤ) (hy' : 1 ≤ y) (hm1' : 1 ≤ m) (hm2' : m ≤ 12) :
    ((⟨y, m, 1⟩ : Date), x) ∈ monthTicks cs ce td ↔
      (dateOrd cs ≤ dateOrd (⟨y, m, 1⟩ : Date) ∧
        dateOrd (⟨y, m, 1⟩ : Date) ≤ dateOrd ce ∧
        x = dateToX (dateOrd cs) td (dateOrd (⟨y, m, 1⟩ : Date))) := by
  have h12 : 12 ≤ monthIdx cs := by
    unfold monthIdx
    omega
  have hfuel : dateOrd ce + 1 ≤ ordM (monthIdx cs) + (dateOrd ce + 2) := by
    have h1 : 1 ≤ ordM (monthIdx cs) := by
      rw [ordM_eq]
      omega
    omega
  unfold monthTicks
  rw [ticksGo_mem (dateOrd cs) (dateOrd ce) td (dateOrd ce + 2) (monthIdx cs) h12 hfuel
    ((⟨y, m, 1⟩ : Date), x)]
  have hmk : mkMonthFirst (y * 12 + (m - 1)) = ⟨y, m, 1⟩ := by
    unfold mkMonthFirst
    have e1 : (y * 12 + (m - 1)) / 12 = y := by omega
    have e2 : (y * 12 + (m - 1)) % 12 + 1 = m := by omega
    rw [e1, e2]
  have hordj : ordM (y * 12 + (m - 1)) = dateOrd (⟨y, m, 1⟩ : Date) := by
    unfold ordM
    rw [hmk]
  constructor
  · rintro ⟨j, hij, hjcs, hjce, ht⟩
    have h1 : (⟨y, m, 1⟩ : Date) = mkMonthFirst j := congrArg Prod.fst ht
    have h2 : x = dateToX (dateOrd cs) td (ordM j) := congrArg Prod.snd ht
    have h3 : ordM j = dateOrd (⟨y, m, 1⟩ : Date) := by
      unfold ordM
      rw [← h1]
    rw [h3] at hjcs hjce h2
    exact ⟨hjcs, hjce, h2⟩
  · rintro ⟨hcsle, hcele, hx⟩
    refine ⟨y * 12 + (m - 1), ?_, ?_, ?_, ?_⟩
    · by_contra hlt
      push_neg at hlt
      have h12j : 12 ≤ y * 12 + (m - 1) := by omega
      have hlt2 := ordM_lt_of_lt (y * 12 + (m - 1)) (monthIdx cs) h12j hlt
      have hfloor := ordM_monthIdx_le cs hm1 hm2 hd1
      rw [hordj] at hlt2
      omega
    · rw [hordj]
      exact hcsle
    · rw [hordj]
      exact hcele
    · rw [hmk, hordj, hx]

/-- Claim C6 fails as stated: with `chart_start = 2024-01-15` and
`chart_end = 2024-03-10` the axis draws ticks for February and March only; the
month containing `chart_start` (January) receives no tick because
`datetime(2024, 1, 1) < chart_start` fails the loop's `current >= chart_start`
guard. -/
theorem c6_counterexample :
    (monthTicks ⟨2024, 1, 15⟩ ⟨2024, 3, 10⟩ 55).map Prod.fst =
      [⟨2024, 2, 1⟩, ⟨2024, 3, 1⟩] ∧
    (⟨2024, 1, 1⟩ : Date) ∉ (monthTicks ⟨2024, 1, 15⟩ ⟨2024, 3, 10⟩ 55).map Prod.fst := by
  constructor
  · decide
  · decide

/-- Witness for the amended C6: February's first day is within the bounds and
gets its tick at the computed x position. -/
theorem c6_witness :
    ((⟨2024, 2, 1⟩ : Date),
      dateToX (dateOrd ⟨2024, 1, 15⟩) 55 (dateOrd (⟨2024, 2, 1⟩ : Date))) ∈
      monthTicks ⟨2024, 1, 15⟩ ⟨2024, 3, 10⟩ 55 :=
  (c6_month_axis_amended ⟨2024, 1, 15⟩ ⟨2024, 3, 10⟩ 55 (by decide) (by decide) (by decide)
    (by decide) 2024 2 _ (by decide) (by decide) (by decide)).mpr
    ⟨by decide, by decide, rfl⟩
